import Mathlib

/-!
# Shallow embedding of the evolutionary-algorithm notebook

This file embeds the executable logic of the notebook
`src/introduction/evolutionary_algorithms.ipynb` (binary individuals, the
onemax and leading_ones objectives, the (1+1) EA and the (1+lambda) EA)
and proves properties of that embedding.

Randomness is modelled by explicit state passing: an `RNG` value carries
one stream of booleans (the draws of `np.random.randint(0, 2, ...)`) and
one stream of rationals intended to lie in `[0, 1)` (the draws of
`np.random.rand()`), together with a cursor into each stream.  Every
operation that consumes randomness takes an `RNG` and returns the advanced
`RNG`.  Python `float` fitness values are modelled exactly: a fitness is
an integer or the sentinel `-inf`, that is, a value of `WithBot Int`;
the per-bit thresholds are rationals.
-/

namespace Evolution

/-- Explicit random source: a stream of bits for `np.random.randint(0, 2, ...)`
draws, a stream of rationals in `[0, 1)` for `np.random.rand()` draws, and a
cursor into each stream. -/
structure RNG where
  bits : Nat → Bool
  us : Nat → Rat
  bi : Nat
  ui : Nat

/-- Draw one bit of a random genome, advancing the bit cursor. -/
def RNG.drawBit (g : RNG) : Bool × RNG :=
  (g.bits g.bi, ⟨g.bits, g.us, g.bi + 1, g.ui⟩)

/-- Draw one value of `np.random.rand()`, advancing the rand cursor. -/
def RNG.drawU (g : RNG) : Rat × RNG :=
  (g.us g.ui, ⟨g.bits, g.us, g.bi, g.ui + 1⟩)

/-- Draw `n` random bits, the embedding of `np.random.randint(0, 2, (n,))`. -/
def drawBits : Nat → RNG → List Bool × RNG
  | 0, g => ([], g)
  | n + 1, g =>
    let p := g.drawBit
    let r := drawBits n p.2
    (p.1 :: r.1, r.2)

/-- An individual: a genome of bits (numpy stores the bits as the integers
0 and 1; a bit is `true` exactly when the stored integer is 1) and a
fitness, which is an integer or the initial sentinel `-np.inf`, modelled
as the bottom element of `WithBot Int`. -/
structure Individual where
  genes : List Bool
  fitness : WithBot Int
deriving DecidableEq

/-- The default individual returned by list indexing with a fallback; the
fallback is never reached in the embedded programs (the index bounds are
proved below). -/
def defaultInd : Individual := ⟨[], ⊥⟩

/-- The constructor `Individual.__init__(self, n)`: a genome of `n` random
bits and fitness `-np.inf`.  The constructor performs no validation of `n`;
with `n = 0` it succeeds with an empty genome. -/
def Individual.init (n : Nat) (g : RNG) : Individual × RNG :=
  let r := drawBits n g
  (⟨r.1, ⊥⟩, r.2)

/-- Individual creation over an integer length, exposing the behaviour on
non-positive lengths: numpy raises ValueError for a negative shape inside
`np.random.randint`, and the constructor itself performs no check, so
length 0 succeeds with an empty genome. -/
def Individual.initZ (n : Int) (g : RNG) : Except String (Individual × RNG) :=
  if n < 0 then Except.error "ValueError: negative dimensions are not allowed"
  else Except.ok (Individual.init n.toNat g)

/-- The objective `onemax(i) = np.sum(i.genes)`: the number of 1-bits. -/
def onemax (i : Individual) : Int := (i.genes.count true : Int)

/-- The loop of `leading_ones`: `f = 0`, then for each index `i`, if the
gene at `i` is 0 then set `f = i` and break; if the loop finishes without
a break, the initial `f = 0` is returned. -/
def leadingOnesLoop : List Bool → Nat → Nat
  | [], _ => 0
  | b :: bs, i => if !b then i else leadingOnesLoop bs (i + 1)

/-- The objective `leading_ones(ind)` exactly as the notebook defines it:
it returns the index of the first 0-bit, and returns 0 (the unchanged
initial value of `f`) when the genome has no 0-bit, because the loop then
never assigns `f`. -/
def leading_ones (ind : Individual) : Int := (leadingOnesLoop ind.genes 0 : Int)

/-- `evaluate(ind, objective)`: sets `ind.fitness = objective(ind)` and
falls off the end of the function body, so its Python return value is
`None`.  The first component is the updated individual, the second is the
return value, `none` standing for Python None. -/
def evaluate (ind : Individual) (objective : Individual → Int) :
    Individual × Option Int :=
  ({ ind with fitness := (objective ind : WithBot Int) }, none)

/-- The loop of `mutate`: for each gene, draw `np.random.rand()` and flip
the copied gene exactly when the draw is below the mutation rate. -/
def mutateGenes (rate : Rat) : List Bool → RNG → List Bool × RNG
  | [], g => ([], g)
  | b :: bs, g =>
    let p := g.drawU
    let r := mutateGenes rate bs p.2
    ((if p.1 < rate then !b else b) :: r.1, r.2)

/-- `mutate(ind, mutation_rate)`: copies the genome, flips each bit
independently with probability `mutation_rate`, then builds a throwaway
`Individual(len(ind.genes))` (whose random genome is discarded but whose
random draws advance the generator) and overwrites its genes with the
flipped copy.  The child therefore carries the flipped genes and the
fresh-constructor fitness `-np.inf`. -/
def mutate (ind : Individual) (rate : Rat) (g : RNG) : Individual × RNG :=
  let m := mutateGenes rate ind.genes g
  let c := Individual.init ind.genes.length m.2
  ({ c.1 with genes := m.1 }, c.2)

/-- The default value of the parameter `mutation_rate` of `mutate`.  Python
evaluates the default expression `1.0/len(ind.genes)` once, when the `def`
statement runs; at that moment the name `ind` resolves to the notebook
global `ind = Individual(10)`, so the default is the constant `1/10`,
independent of the parent later passed to `mutate`.  Written with `mkRat`
so that concrete runs evaluate by kernel reduction. -/
def defaultMutationRate : Rat := mkRat 1 10

/-- A call `mutate(parent)` with the mutation rate left to its default. -/
def mutateDefault (ind : Individual) (g : RNG) : Individual × RNG :=
  mutate ind defaultMutationRate g

/-- The generation loop of `one_plus_one`: mutate the parent, evaluate the
child, replace the parent when the child fitness is at least the parent
fitness, and record the parent fitness. -/
def onePlusOneLoop (objective : Individual → Int) :
    Nat → Individual → RNG → List (WithBot Int) × RNG
  | 0, _, g => ([], g)
  | k + 1, parent, g =>
    let c := mutateDefault parent g
    let child := (evaluate c.1 objective).1
    let parent1 := if parent.fitness ≤ child.fitness then child else parent
    let r := onePlusOneLoop objective k parent1 c.2
    (parent1.fitness :: r.1, r.2)

/-- `one_plus_one(ind_length, num_generations, objective)`: a random
evaluated parent, then the generation loop; returns the recorded fitness
list and the final generator. -/
def one_plus_one (indLength numGenerations : Nat)
    (objective : Individual → Int) (g : RNG) : List (WithBot Int) × RNG :=
  let p := Individual.init indLength g
  let parent := (evaluate p.1 objective).1
  onePlusOneLoop objective numGenerations parent p.2

/-- The offspring loop of one generation of `one_plus_lambda`, iterated
once per `j in range(1, lambda_count)`: append an evaluated mutant of the
expert to the population and move `best` to the new index exactly when the
new fitness is strictly greater than the fitness at `best` (so ties keep
the earlier index). -/
def lambdaLoop (objective : Individual → Int) (expert : Individual) :
    Nat → List Individual → Nat → RNG → List Individual × Nat × RNG
  | 0, population, best, g => (population, best, g)
  | k + 1, population, best, g =>
    let c := mutateDefault expert g
    let child := (evaluate c.1 objective).1
    let population1 := population ++ [child]
    let j := population.length
    let best1 :=
      if (population1.getD best defaultInd).fitness < child.fitness then j
      else best
    lambdaLoop objective expert k population1 best1 c.2

/-- The population built by one generation of `one_plus_lambda`, starting
from `population = [expert]` and running the offspring loop
`lambda_count - 1` times (`range(1, lambda_count)`; natural subtraction
matches the empty Python range when `lambda_count` is 0 or 1). -/
def genPop (objective : Individual → Int) (lam : Nat) (expert : Individual)
    (g : RNG) : List Individual :=
  (lambdaLoop objective expert (lam - 1) [expert] 0 g).1

/-- The index `best` at the end of one generation of `one_plus_lambda`. -/
def genBest (objective : Individual → Int) (lam : Nat) (expert : Individual)
    (g : RNG) : Nat :=
  (lambdaLoop objective expert (lam - 1) [expert] 0 g).2.1

/-- The generator state at the end of one generation of
`one_plus_lambda`. -/
def genRNG (objective : Individual → Int) (lam : Nat) (expert : Individual)
    (g : RNG) : RNG :=
  (lambdaLoop objective expert (lam - 1) [expert] 0 g).2.2

/-- One generation of `one_plus_lambda`: run the offspring loop, then
replace the expert by `population[best]` when that fitness is at least the
expert fitness. -/
def lambdaGen (objective : Individual → Int) (lam : Nat) (expert : Individual)
    (g : RNG) : Individual × RNG :=
  let pop := genPop objective lam expert g
  let best := genBest objective lam expert g
  let bestInd := pop.getD best defaultInd
  (if expert.fitness ≤ bestInd.fitness then bestInd else expert,
    genRNG objective lam expert g)

/-- The outer generation loop of `one_plus_lambda`, recording the expert
fitness after each generation. -/
def onePlusLambdaLoop (objective : Individual → Int) (lam : Nat) :
    Nat → Individual → RNG → List (WithBot Int) × RNG
  | 0, _, g => ([], g)
  | k + 1, expert, g =>
    let e := lambdaGen objective lam expert g
    let r := onePlusLambdaLoop objective lam k e.1 e.2
    (e.1.fitness :: r.1, r.2)

/-- `one_plus_lambda(ind_length, num_generations, objective, lambda_count)`:
a random evaluated expert, then the generation loop. -/
def one_plus_lambda (indLength numGenerations : Nat)
    (objective : Individual → Int) (lam : Nat) (g : RNG) :
    List (WithBot Int) × RNG :=
  let p := Individual.init indLength g
  let expert := (evaluate p.1 objective).1
  onePlusLambdaLoop objective lam numGenerations expert p.2

/-- The fitness of the population entry at index `k`. -/
def popFit (pop : List Individual) (k : Nat) : WithBot Int :=
  (pop.getD k defaultInd).fitness

/-- The list of the next `n` values of the rand stream, starting at the
current cursor. -/
def uTake (g : RNG) : Nat → List Rat
  | 0 => []
  | n + 1 => g.us g.ui :: uTake g.drawU.2 n

/-- A fitness value read as a rational, with the sentinel read as 0; used
to state expected values of recorded fitness traces whose entries are
integers. -/
def fitQ (x : WithBot Int) : Rat := ((x.unbot' 0 : Int) : Rat)

/-- A concrete generator whose bit stream is constantly `b` and whose rand
stream is constantly `u`. -/
def constRNG (b : Bool) (u : Rat) : RNG := ⟨fun _ => b, fun _ => u, 0, 0⟩

/-- The default mutation rate written with division, for readability. -/
theorem defaultMutationRate_eq_div : defaultMutationRate = 1 / 10 := by
  simp [defaultMutationRate, Rat.mkRat_eq_div]

/-! ## Lemmas about the mutation operator -/

theorem mutateGenes_fst (rate : Rat) :
    ∀ (bs : List Bool) (g : RNG),
      (mutateGenes rate bs g).1
        = List.zipWith (fun b u => if u < rate then !b else b) bs
            (uTake g bs.length)
  | [], _ => rfl
  | b :: bs, g => by
    simp only [mutateGenes, uTake, List.length_cons, List.zipWith_cons_cons]
    exact congrArg _ (mutateGenes_fst rate bs g.drawU.2)

theorem uTake_length (g : RNG) (n : Nat) : (uTake g n).length = n := by
  induction n generalizing g with
  | zero => rfl
  | succ n ih => simp [uTake, ih]

theorem mutate_genes_eq (ind : Individual) (rate : Rat) (g : RNG) :
    (mutate ind rate g).1.genes
      = List.zipWith (fun b u => if u < rate then !b else b) ind.genes
          (uTake g ind.genes.length) := by
  simp [mutate, Individual.init, mutateGenes_fst]

theorem mutate_fitness_eq (ind : Individual) (rate : Rat) (g : RNG) :
    (mutate ind rate g).1.fitness = ⊥ := by
  simp [mutate, Individual.init]

theorem mutateGenes_zero :
    ∀ (bs : List Bool) (g : RNG), (∀ k, 0 ≤ g.us k) →
      (mutateGenes 0 bs g).1 = bs
  | [], _, _ => rfl
  | b :: bs, g, h => by
    show (if g.drawU.1 < 0 then !b else b) :: (mutateGenes 0 bs g.drawU.2).1
        = b :: bs
    rw [mutateGenes_zero bs g.drawU.2 h]
    show (if g.us g.ui < 0 then !b else b) :: bs = b :: bs
    rw [if_neg (not_lt.mpr (h g.ui))]

theorem mutateGenes_one :
    ∀ (bs : List Bool) (g : RNG), (∀ k, g.us k < 1) →
      (mutateGenes 1 bs g).1 = bs.map fun b => !b
  | [], _, _ => rfl
  | b :: bs, g, h => by
    show (if g.drawU.1 < 1 then !b else b) :: (mutateGenes 1 bs g.drawU.2).1
        = (!b) :: bs.map fun b => !b
    rw [mutateGenes_one bs g.drawU.2 h]
    show (if g.us g.ui < 1 then !b else b) :: bs.map (fun b => !b)
        = (!b) :: bs.map fun b => !b
    rw [if_pos (h g.ui)]

/-! ## Claim theorems: the mutation operator -/

/-- Claim C4: for every individual, mutation rate and generator state,
mutate returns a fresh, unevaluated child: its fitness is the constructor
sentinel bottom, and its genome is computed pointwise from the parent
genome, flipping bit i exactly when the i-th rand draw is below the rate.
The embedding passes state explicitly and builds the child from a fresh
constructor call, so the parent value (genome and fitness) is untouched
and no state is shared between parent and child. -/
theorem mutate_returns_fresh_flipped_child (ind : Individual) (rate : Rat)
    (g : RNG) :
    (mutate ind rate g).1.fitness = ⊥
    ∧ (mutate ind rate g).1.genes
        = List.zipWith (fun b u => if u < rate then !b else b) ind.genes
            (uTake g ind.genes.length)
    ∧ (mutate ind rate g).1.genes.length = ind.genes.length := by
  refine ⟨mutate_fitness_eq ind rate g, mutate_genes_eq ind rate g, ?_⟩
  rw [mutate_genes_eq]
  simp [uTake_length]

/-- Claim C5: when every value of the rand stream lies in the interval
from 0 inclusive to 1 exclusive, as np.random.rand guarantees, mutation at
rate 0 copies the parent genome unchanged and mutation at rate 1 flips
every bit, producing the bitwise complement. -/
theorem mutate_rate_endpoints (ind : Individual) (g : RNG)
    (h : ∀ k, 0 ≤ g.us k ∧ g.us k < 1) :
    (mutate ind 0 g).1.genes = ind.genes
    ∧ (mutate ind 1 g).1.genes = ind.genes.map fun b => !b := by
  constructor
  · simp [mutate, Individual.init, mutateGenes_zero ind.genes g fun k => (h k).1]
  · simp [mutate, Individual.init, mutateGenes_one ind.genes g fun k => (h k).2]

/-- Witness for claim C5 at a concrete parent and a concrete admissible
rand stream. -/
theorem mutate_rate_endpoints_witness :
    (∀ k, 0 ≤ (constRNG false (mkRat 1 2)).us k
        ∧ (constRNG false (mkRat 1 2)).us k < 1)
    ∧ ((mutate ⟨[true, false], ⊥⟩ 0 (constRNG false (mkRat 1 2))).1.genes
          = [true, false]
        ∧ (mutate ⟨[true, false], ⊥⟩ 1 (constRNG false (mkRat 1 2))).1.genes
          = ([true, false] : List Bool).map fun b => !b) := by
  have h : ∀ k, 0 ≤ (constRNG false (mkRat 1 2)).us k
      ∧ (constRNG false (mkRat 1 2)).us k < 1 := by
    intro k
    constructor
    · show (0 : Rat) ≤ mkRat 1 2
      decide
    · show mkRat 1 2 < (1 : Rat)
      decide
  exact ⟨h, mutate_rate_endpoints ⟨[true, false], ⊥⟩ (constRNG false (mkRat 1 2)) h⟩

/-! ## Claim theorems: objectives, evaluation, validation, default rate -/

/-- Claim C1: the loop of leading_ones never assigns its accumulator when
the genome has no 0-bit, so the all-ones genome of length 5 scores 0, not
the genome length 5 that the specification and the formula in the
surrounding notebook text require.  On genomes that do contain a 0-bit the
function agrees with the specification: it returns the 0-based index of
the first 0-bit, short-circuiting there. -/
theorem leading_ones_all_ones_returns_zero :
    leading_ones ⟨List.replicate 5 true, ⊥⟩ = 0
    ∧ (0 : Int) ≠ 5
    ∧ leading_ones ⟨[true, true, true, false, true], ⊥⟩ = 3
    ∧ leading_ones ⟨[false, true, true], ⊥⟩ = 0 := by
  refine ⟨by decide, by decide, by decide, by decide⟩

/-- Counterexample for claim C8: the Python body of evaluate has no return
statement, so the call returns None rather than the fitness value it just
stored. -/
theorem evaluate_returns_none :
    (evaluate ⟨[true, false], ⊥⟩ onemax).2 = none
    ∧ (evaluate ⟨[true, false], ⊥⟩ onemax).2
        ≠ some (onemax (evaluate ⟨[true, false], ⊥⟩ onemax).1) := by
  refine ⟨rfl, by decide⟩

/-- Claim C8 as amended: evaluate stores the objective value of the
individual in the fitness field, leaves the genome unchanged, and returns
None; for an objective that depends only on the genome, evaluating again
with the genome unchanged changes nothing further. -/
theorem evaluate_sets_fitness_idempotent (ind : Individual)
    (objective : Individual → Int)
    (hobj : ∀ a b : Individual, a.genes = b.genes → objective a = objective b) :
    (evaluate ind objective).1.fitness = (objective ind : WithBot Int)
    ∧ (evaluate ind objective).1.genes = ind.genes
    ∧ (evaluate ind objective).2 = none
    ∧ evaluate (evaluate ind objective).1 objective = evaluate ind objective := by
  refine ⟨rfl, rfl, rfl, ?_⟩
  show ({ (evaluate ind objective).1 with
      fitness := (objective (evaluate ind objective).1 : WithBot Int) },
    (none : Option Int))
    = ({ ind with fitness := (objective ind : WithBot Int) }, none)
  rw [hobj (evaluate ind objective).1 ind rfl]
  exact rfl

/-- Witness for claim C8 as amended, at a concrete individual and the
onemax objective, which depends only on the genes. -/
theorem evaluate_sets_fitness_idempotent_witness :
    (∀ a b : Individual, a.genes = b.genes → onemax a = onemax b)
    ∧ ((evaluate ⟨[true, false, true], ⊥⟩ onemax).1.fitness
          = (onemax ⟨[true, false, true], ⊥⟩ : WithBot Int)
        ∧ (evaluate ⟨[true, false, true], ⊥⟩ onemax).1.genes
          = [true, false, true]
        ∧ (evaluate ⟨[true, false, true], ⊥⟩ onemax).2 = none
        ∧ evaluate (evaluate ⟨[true, false, true], ⊥⟩ onemax).1 onemax
          = evaluate ⟨[true, false, true], ⊥⟩ onemax) :=
  ⟨fun a b h => by simp [onemax, h],
    evaluate_sets_fitness_idempotent ⟨[true, false, true], ⊥⟩ onemax
      fun a b h => by simp [onemax, h]⟩

/-- Counterexample for claim C7: no precondition is validated.  Creating
an individual of length 0 succeeds with an empty genome instead of
failing, a mutation rate of 3/2 outside the unit interval is accepted and
behaves like rate 1, and one_plus_lambda accepts lambda 0 and runs its
generations normally. -/
theorem no_validation_counterexample :
    Individual.initZ 0 (constRNG false (mkRat 1 2))
      = Except.ok (⟨[], ⊥⟩, constRNG false (mkRat 1 2))
    ∧ (mutate ⟨[false], ⊥⟩ (mkRat 3 2) (constRNG false (mkRat 1 2))).1.genes
      = [true]
    ∧ (one_plus_lambda 1 1 onemax 0 (constRNG true (mkRat 1 2))).1
      = [((1 : Int) : WithBot Int)] := by
  refine ⟨rfl, by decide, by decide⟩

theorem onePlusLambdaLoop_zero_eq_one (objective : Individual → Int) :
    ∀ (G : Nat) (e : Individual) (g : RNG),
      onePlusLambdaLoop objective 0 G e g = onePlusLambdaLoop objective 1 G e g := by
  intro G
  induction G with
  | zero => intro e g; rfl
  | succ G ih =>
    intro e g
    simp only [onePlusLambdaLoop]
    have hg : lambdaGen objective 0 e g = lambdaGen objective 1 e g := rfl
    rw [hg, ih]

/-- Claim C7 as amended: the code rejects nothing itself.  Creation fails
exactly for negative lengths, and only because numpy raises ValueError on
a negative shape; length 0 is accepted.  A lambda count below 1 is
accepted, and the run then behaves exactly as with lambda count 1, since
the Python range over offspring indices is empty in both cases. -/
theorem no_validation_behavior (n : Int) (g : RNG) (L G : Nat)
    (objective : Individual → Int) (g2 : RNG) :
    ((Individual.initZ n g).isOk = true ↔ 0 ≤ n)
    ∧ one_plus_lambda L G objective 0 g2 = one_plus_lambda L G objective 1 g2 := by
  constructor
  · constructor
    · intro hk
      by_contra hn
      have h : n < 0 := by omega
      simp [Individual.initZ, h, Except.isOk, Except.toBool] at hk
    · intro hn
      have h : ¬ n < 0 := by omega
      simp [Individual.initZ, h, Except.isOk, Except.toBool]
  · show onePlusLambdaLoop objective 0 G _ _ = onePlusLambdaLoop objective 1 G _ _
    exact onePlusLambdaLoop_zero_eq_one objective G _ _

/-- Claim C9: the default mutation rate is the constant 1/10, because
Python evaluates the default expression once at definition time against
the notebook global ind of genome length 10.  For a parent of length 20
the default call mutate(parent) therefore uses threshold 1/10 and not the
claimed 1/20: with every rand draw equal to 7/100, which lies between the
two thresholds, the default call flips all 20 bits while a rate of 1/20
would flip none. -/
theorem default_mutation_rate_is_constant_tenth :
    (mutateDefault ⟨List.replicate 20 false, ⊥⟩
        (constRNG false (mkRat 7 100))).1.genes
      = List.replicate 20 true
    ∧ (mutate ⟨List.replicate 20 false, ⊥⟩ (mkRat 1 20)
        (constRNG false (mkRat 7 100))).1.genes
      = List.replicate 20 false
    ∧ defaultMutationRate ≠ mkRat 1 20 := by
  refine ⟨by decide, by decide, by decide⟩

/-! ## The (1+1) EA: monotone fitness trace -/

/-- The parent kept after one generation of the (1+1) loop: the evaluated
mutant replaces the parent exactly when its fitness is at least the parent
fitness. -/
def nextParent (objective : Individual → Int) (p : Individual) (g : RNG) :
    Individual :=
  let child := (evaluate (mutateDefault p g).1 objective).1
  if p.fitness ≤ child.fitness then child else p

theorem onePlusOneLoop_succ (objective : Individual → Int) (k : Nat)
    (p : Individual) (g : RNG) :
    onePlusOneLoop objective (k + 1) p g
      = ((nextParent objective p g).fitness
          :: (onePlusOneLoop objective k (nextParent objective p g)
              (mutateDefault p g).2).1,
        (onePlusOneLoop objective k (nextParent objective p g)
            (mutateDefault p g).2).2) := rfl

theorem nextParent_fitness_ge (objective : Individual → Int) (p : Individual)
    (g : RNG) : p.fitness ≤ (nextParent objective p g).fitness := by
  show p.fitness ≤
    (if p.fitness ≤ (evaluate (mutateDefault p g).1 objective).1.fitness
      then (evaluate (mutateDefault p g).1 objective).1 else p).fitness
  split_ifs with h
  · exact h
  · exact le_refl _

theorem onePlusOneLoop_spec (objective : Individual → Int) :
    ∀ (k : Nat) (p : Individual) (g : RNG),
      List.Chain' (· ≤ ·) (onePlusOneLoop objective k p g).1
      ∧ ∀ x, (onePlusOneLoop objective k p g).1.head? = some x →
          p.fitness ≤ x := by
  intro k
  induction k with
  | zero =>
    intro p g
    refine ⟨List.chain'_nil, ?_⟩
    intro x hx
    exact absurd hx (by simp [onePlusOneLoop])
  | succ k ih =>
    intro p g
    obtain ⟨ih1, ih2⟩ := ih (nextParent objective p g) (mutateDefault p g).2
    rw [onePlusOneLoop_succ]
    constructor
    · rw [List.chain'_cons']
      refine ⟨fun y hy => ih2 y (Option.mem_def.mp hy), ih1⟩
    · intro x hx
      have hx2 : (nextParent objective p g).fitness = x := by
        simpa using hx
      rw [← hx2]
      exact nextParent_fitness_ge objective p g

/-- Claim C3: for a positive genome length and any generation count and
objective, the fitness trace recorded by one_plus_one is non-decreasing:
the parent is replaced only when the child fitness is at least the parent
fitness, so the recorded parent fitness never drops. -/
theorem one_plus_one_fits_monotone (indLength numGenerations : Nat)
    (objective : Individual → Int) (g : RNG) (h : 0 < indLength) :
    List.Chain' (· ≤ ·) (one_plus_one indLength numGenerations objective g).1 :=
  (onePlusOneLoop_spec objective numGenerations
    (evaluate (Individual.init indLength g).1 objective).1
    (Individual.init indLength g).2).1

/-- Witness for claim C3 at a concrete length, generation count, objective
and random stream. -/
theorem one_plus_one_fits_monotone_witness :
    0 < 3
    ∧ List.Chain' (· ≤ ·)
        (one_plus_one 3 2 onemax (constRNG true (mkRat 1 2))).1 :=
  ⟨by decide,
    one_plus_one_fits_monotone 3 2 onemax (constRNG true (mkRat 1 2)) (by decide)⟩

/-! ## The (1+lambda) EA: the offspring loop invariant -/

/-- The evaluated mutant of the expert produced by one pass of the
offspring loop at generator state g. -/
def lambdaChild (objective : Individual → Int) (expert : Individual)
    (g : RNG) : Individual :=
  (evaluate (mutateDefault expert g).1 objective).1

theorem lambdaLoop_succ (objective : Individual → Int) (expert : Individual)
    (k : Nat) (pop : List Individual) (best : Nat) (g : RNG) :
    lambdaLoop objective expert (k + 1) pop best g
      = lambdaLoop objective expert k
          (pop ++ [lambdaChild objective expert g])
          (if ((pop ++ [lambdaChild objective expert g]).getD best
                defaultInd).fitness < (lambdaChild objective expert g).fitness
            then pop.length else best)
          (mutateDefault expert g).2 := rfl

theorem lambdaLoop_spec (objective : Individual → Int) (expert : Individual) :
    ∀ (k : Nat) (pop : List Individual) (best : Nat) (g : RNG)
      (pop1 : List Individual) (best1 : Nat) (g1 : RNG),
      lambdaLoop objective expert k pop best g = (pop1, best1, g1) →
      best < pop.length →
      (∀ j, j < pop.length → popFit pop j ≤ popFit pop best) →
      (∀ j, j < best → popFit pop j < popFit pop best) →
      pop1.length = pop.length + k
      ∧ (∀ i, i < pop.length → pop1.getD i defaultInd = pop.getD i defaultInd)
      ∧ best1 < pop1.length
      ∧ (∀ j, j < pop1.length → popFit pop1 j ≤ popFit pop1 best1)
      ∧ (∀ j, j < best1 → popFit pop1 j < popFit pop1 best1)
      ∧ (∀ j, pop.length ≤ j → j < pop1.length →
          ∃ g2, pop1.getD j defaultInd
            = (evaluate (mutateDefault expert g2).1 objective).1) := by
  intro k
  induction k with
  | zero =>
    intro pop best g pop1 best1 g1 heq hb hmax hstrict
    have h1 : pop = pop1 := congrArg (fun t => t.1) heq
    have h2 : best = best1 := congrArg (fun t => t.2.1) heq
    subst h1
    subst h2
    refine ⟨by omega, fun i _ => rfl, hb, hmax, hstrict, ?_⟩
    intro j hj1 hj2
    omega
  | succ k ih =>
    intro pop best g pop1 best1 g1 heq hb hmax hstrict
    rw [lambdaLoop_succ] at heq
    set child := lambdaChild objective expert g with hchild
    set P1 := pop ++ [child] with hP1
    set B1 := (if (P1.getD best defaultInd).fitness < child.fitness
        then pop.length else best) with hB1
    have hlen1 : P1.length = pop.length + 1 := by
      rw [hP1]
      simp
    have hpref : ∀ i, i < pop.length →
        P1.getD i defaultInd = pop.getD i defaultInd := by
      intro i hi
      rw [hP1]
      exact List.getD_append _ _ _ _ hi
    have hlast : P1.getD pop.length defaultInd = child := by
      rw [hP1, List.getD_append_right _ _ _ _ (le_refl _)]
      simp
    have hfit_pref : ∀ i, i < pop.length → popFit P1 i = popFit pop i :=
      fun i hi => congrArg Individual.fitness (hpref i hi)
    have hfit_last : popFit P1 pop.length = child.fitness :=
      congrArg Individual.fitness hlast
    have hbestP1 : popFit P1 best = popFit pop best := hfit_pref best hb
    have hkey : B1 < P1.length
        ∧ (∀ j, j < P1.length → popFit P1 j ≤ popFit P1 B1)
        ∧ (∀ j, j < B1 → popFit P1 j < popFit P1 B1) := by
      by_cases hc : (P1.getD best defaultInd).fitness < child.fitness
      · have hB : B1 = pop.length := by
          rw [hB1, if_pos hc]
        have hcond : popFit pop best < child.fitness := by
          have h2 : popFit P1 best < child.fitness := hc
          rwa [hbestP1] at h2
        refine ⟨by omega, ?_, ?_⟩
        · intro j hj
          rw [hB, hfit_last]
          have hj2 : j < pop.length ∨ j = pop.length := by omega
          rcases hj2 with hj2 | hj2
          · rw [hfit_pref j hj2]
            exact le_of_lt (lt_of_le_of_lt (hmax j hj2) hcond)
          · subst hj2
            rw [hfit_last]
        · intro j hj
          rw [hB] at hj
          rw [hB, hfit_last, hfit_pref j hj]
          exact lt_of_le_of_lt (hmax j hj) hcond
      · have hB : B1 = best := by
          rw [hB1, if_neg hc]
        have hcond : child.fitness ≤ popFit pop best := by
          have h2 : child.fitness ≤ popFit P1 best := not_lt.mp hc
          rwa [hbestP1] at h2
        refine ⟨by omega, ?_, ?_⟩
        · intro j hj
          rw [hB, hbestP1]
          have hj2 : j < pop.length ∨ j = pop.length := by omega
          rcases hj2 with hj2 | hj2
          · rw [hfit_pref j hj2]
            exact hmax j hj2
          · subst hj2
            rw [hfit_last]
            exact hcond
        · intro j hj
          rw [hB] at hj
          rw [hB, hbestP1, hfit_pref j (lt_trans hj hb)]
          exact hstrict j hj
    obtain ⟨ih1, ih2, ih3, ih4, ih5, ih6⟩ :=
      ih P1 B1 (mutateDefault expert g).2 pop1 best1 g1 heq
        hkey.1 hkey.2.1 hkey.2.2
    refine ⟨by omega, ?_, ih3, ih4, ih5, ?_⟩
    · intro i hi
      rw [← hpref i hi]
      exact ih2 i (by omega)
    · intro j hj1 hj2
      have hj3 : j = pop.length ∨ P1.length ≤ j := by omega
      rcases hj3 with hj3 | hj3
      · subst hj3
        refine ⟨g, ?_⟩
        rw [ih2 pop.length (by omega), hlast, hchild]
        rfl
      · exact ih6 j hj3 hj2

theorem genParts_spec (objective : Individual → Int) (lam : Nat)
    (expert : Individual) (g : RNG) :
    (genPop objective lam expert g).length = 1 + (lam - 1)
    ∧ (genPop objective lam expert g).getD 0 defaultInd = expert
    ∧ genBest objective lam expert g < (genPop objective lam expert g).length
    ∧ (∀ j, j < (genPop objective lam expert g).length →
        popFit (genPop objective lam expert g) j
          ≤ popFit (genPop objective lam expert g)
              (genBest objective lam expert g))
    ∧ (∀ j, j < genBest objective lam expert g →
        popFit (genPop objective lam expert g) j
          < popFit (genPop objective lam expert g)
              (genBest objective lam expert g))
    ∧ (∀ j, 1 ≤ j → j < (genPop objective lam expert g).length →
        ∃ g2, (genPop objective lam expert g).getD j defaultInd
          = (evaluate (mutateDefault expert g2).1 objective).1) := by
  obtain ⟨h1, h2, h3, h4, h5, h6⟩ :=
    lambdaLoop_spec objective expert (lam - 1) [expert] 0 g
      (genPop objective lam expert g) (genBest objective lam expert g)
      (genRNG objective lam expert g) rfl (by simp)
      (by
        intro j hj
        simp only [List.length_singleton, Nat.lt_one_iff] at hj
        subst hj
        exact le_refl _)
      (by
        intro j hj
        exact absurd hj (Nat.not_lt_zero j))
  rw [List.length_singleton] at h1
  refine ⟨h1, ?_, h3, h4, h5, ?_⟩
  · rw [h2 0 (by simp)]
    rfl
  · intro j hj1 hj2
    exact h6 j (by simpa using hj1) hj2

/-- Claim C6: in one generation of one_plus_lambda with lambda at least 1,
the candidate population has exactly lambda entries, of which entry 0 is
the current expert and the lambda minus 1 others are evaluated mutants of
the expert in generation order; the selected index is the first index
attaining the maximum fitness, since the loop moves it only on a strictly
greater fitness; and the expert for the next generation is the selected
candidate exactly when its fitness is at least the expert fitness. -/
theorem one_plus_lambda_generation_spec (objective : Individual → Int)
    (lam : Nat) (expert : Individual) (g : RNG) (h : 1 ≤ lam) :
    (genPop objective lam expert g).length = lam
    ∧ (genPop objective lam expert g).getD 0 defaultInd = expert
    ∧ genBest objective lam expert g < lam
    ∧ (∀ j, j < lam →
        popFit (genPop objective lam expert g) j
          ≤ popFit (genPop objective lam expert g)
              (genBest objective lam expert g))
    ∧ (∀ j, j < genBest objective lam expert g →
        popFit (genPop objective lam expert g) j
          < popFit (genPop objective lam expert g)
              (genBest objective lam expert g))
    ∧ (∀ j, 1 ≤ j → j < lam →
        ∃ g2, (genPop objective lam expert g).getD j defaultInd
          = (evaluate (mutateDefault expert g2).1 objective).1)
    ∧ lambdaGen objective lam expert g
      = (if expert.fitness
            ≤ popFit (genPop objective lam expert g)
                (genBest objective lam expert g)
          then (genPop objective lam expert g).getD
              (genBest objective lam expert g) defaultInd
          else expert,
        genRNG objective lam expert g) := by
  obtain ⟨h1, h2, h3, h4, h5, h6⟩ := genParts_spec objective lam expert g
  have hlen : (genPop objective lam expert g).length = lam := by omega
  refine ⟨hlen, h2, by omega, ?_, h5, ?_, rfl⟩
  · intro j hj
    exact h4 j (by omega)
  · intro j hj1 hj2
    exact h6 j hj1 (by omega)

/-- Witness for claim C6 at lambda 2, a concrete expert, the onemax
objective and a concrete random stream. -/
theorem one_plus_lambda_generation_spec_witness :
    1 ≤ 2
    ∧ ((genPop onemax 2 ⟨[false], ((0 : Int) : WithBot Int)⟩
          (constRNG false (mkRat 1 2))).length = 2
        ∧ (genPop onemax 2 ⟨[false], ((0 : Int) : WithBot Int)⟩
            (constRNG false (mkRat 1 2))).getD 0 defaultInd
          = ⟨[false], ((0 : Int) : WithBot Int)⟩
        ∧ genBest onemax 2 ⟨[false], ((0 : Int) : WithBot Int)⟩
            (constRNG false (mkRat 1 2)) < 2
        ∧ (∀ j, j < 2 →
            popFit (genPop onemax 2 ⟨[false], ((0 : Int) : WithBot Int)⟩
                (constRNG false (mkRat 1 2))) j
              ≤ popFit (genPop onemax 2 ⟨[false], ((0 : Int) : WithBot Int)⟩
                  (constRNG false (mkRat 1 2)))
                  (genBest onemax 2 ⟨[false], ((0 : Int) : WithBot Int)⟩
                    (constRNG false (mkRat 1 2))))
        ∧ (∀ j, j < genBest onemax 2 ⟨[false], ((0 : Int) : WithBot Int)⟩
              (constRNG false (mkRat 1 2)) →
            popFit (genPop onemax 2 ⟨[false], ((0 : Int) : WithBot Int)⟩
                (constRNG false (mkRat 1 2))) j
              < popFit (genPop onemax 2 ⟨[false], ((0 : Int) : WithBot Int)⟩
                  (constRNG false (mkRat 1 2)))
                  (genBest onemax 2 ⟨[false], ((0 : Int) : WithBot Int)⟩
                    (constRNG false (mkRat 1 2))))
        ∧ (∀ j, 1 ≤ j → j < 2 →
            ∃ g2, (genPop onemax 2 ⟨[false], ((0 : Int) : WithBot Int)⟩
                (constRNG false (mkRat 1 2))).getD j defaultInd
              = (evaluate (mutateDefault ⟨[false], ((0 : Int) : WithBot Int)⟩
                  g2).1 onemax).1)
        ∧ lambdaGen onemax 2 ⟨[false], ((0 : Int) : WithBot Int)⟩
            (constRNG false (mkRat 1 2))
          = (if (⟨[false], ((0 : Int) : WithBot Int)⟩ : Individual).fitness
                ≤ popFit (genPop onemax 2 ⟨[false], ((0 : Int) : WithBot Int)⟩
                    (constRNG false (mkRat 1 2)))
                    (genBest onemax 2 ⟨[false], ((0 : Int) : WithBot Int)⟩
                      (constRNG false (mkRat 1 2)))
              then (genPop onemax 2 ⟨[false], ((0 : Int) : WithBot Int)⟩
                  (constRNG false (mkRat 1 2))).getD
                  (genBest onemax 2 ⟨[false], ((0 : Int) : WithBot Int)⟩
                    (constRNG false (mkRat 1 2))) defaultInd
              else ⟨[false], ((0 : Int) : WithBot Int)⟩,
            genRNG onemax 2 ⟨[false], ((0 : Int) : WithBot Int)⟩
              (constRNG false (mkRat 1 2)))) :=
  ⟨by decide,
    one_plus_lambda_generation_spec onemax 2 ⟨[false], ((0 : Int) : WithBot Int)⟩
      (constRNG false (mkRat 1 2)) (by decide)⟩

/-! ## The (1+lambda) EA: the acceptance guard never blocks -/

theorem lambdaGen_guard (objective : Individual → Int) (lam : Nat)
    (expert : Individual) (g : RNG) :
    expert.fitness
      ≤ popFit (genPop objective lam expert g) (genBest objective lam expert g) := by
  obtain ⟨h1, h2, h3, h4, h5, h6⟩ := genParts_spec objective lam expert g
  have h0 : 0 < (genPop objective lam expert g).length := by omega
  have he : popFit (genPop objective lam expert g) 0 = expert.fitness :=
    congrArg Individual.fitness h2
  rw [← he]
  exact h4 0 h0

theorem lambdaGen_eq_best (objective : Individual → Int) (lam : Nat)
    (expert : Individual) (g : RNG) :
    lambdaGen objective lam expert g
      = ((genPop objective lam expert g).getD (genBest objective lam expert g)
          defaultInd,
        genRNG objective lam expert g) := by
  show (if expert.fitness
        ≤ ((genPop objective lam expert g).getD (genBest objective lam expert g)
            defaultInd).fitness
      then (genPop objective lam expert g).getD (genBest objective lam expert g)
          defaultInd
      else expert,
    genRNG objective lam expert g) = _
  have hg : expert.fitness
      ≤ ((genPop objective lam expert g).getD (genBest objective lam expert g)
          defaultInd).fitness :=
    lambdaGen_guard objective lam expert g
  rw [if_pos hg]

theorem lambdaGen_fitness_ge (objective : Individual → Int) (lam : Nat)
    (expert : Individual) (g : RNG) :
    expert.fitness ≤ (lambdaGen objective lam expert g).1.fitness := by
  rw [lambdaGen_eq_best]
  exact lambdaGen_guard objective lam expert g

theorem onePlusLambdaLoop_succ (objective : Individual → Int) (lam : Nat)
    (k : Nat) (e : Individual) (g : RNG) :
    onePlusLambdaLoop objective lam (k + 1) e g
      = ((lambdaGen objective lam e g).1.fitness
          :: (onePlusLambdaLoop objective lam k (lambdaGen objective lam e g).1
              (lambdaGen objective lam e g).2).1,
        (onePlusLambdaLoop objective lam k (lambdaGen objective lam e g).1
            (lambdaGen objective lam e g).2).2) := rfl

theorem onePlusLambdaLoop_spec (objective : Individual → Int) (lam : Nat) :
    ∀ (k : Nat) (e : Individual) (g : RNG),
      List.Chain' (· ≤ ·) (onePlusLambdaLoop objective lam k e g).1
      ∧ ∀ x, (onePlusLambdaLoop objective lam k e g).1.head? = some x →
          e.fitness ≤ x := by
  intro k
  induction k with
  | zero =>
    intro e g
    refine ⟨List.chain'_nil, ?_⟩
    intro x hx
    exact absurd hx (by simp [onePlusLambdaLoop])
  | succ k ih =>
    intro e g
    obtain ⟨ih1, ih2⟩ :=
      ih (lambdaGen objective lam e g).1 (lambdaGen objective lam e g).2
    rw [onePlusLambdaLoop_succ]
    constructor
    · rw [List.chain'_cons']
      exact ⟨fun y hy => ih2 y (Option.mem_def.mp hy), ih1⟩
    · intro x hx
      have hx2 : (lambdaGen objective lam e g).1.fitness = x := by
        simpa using hx
      rw [← hx2]
      exact lambdaGen_fitness_ge objective lam e g

/-- Claim C10: the candidate list of each generation holds the current
expert at index 0, so the selected best candidate has fitness at least the
expert fitness; the final acceptance guard therefore always succeeds and
the expert is rebound to the selected candidate every generation, and the
recorded expert fitness trace of one_plus_lambda is non-decreasing for
every objective. -/
theorem one_plus_lambda_always_rebinds_and_monotone
    (objective : Individual → Int) (lam : Nat) (expert : Individual) (g : RNG)
    (L G : Nat) (gr : RNG) :
    lambdaGen objective lam expert g
      = ((genPop objective lam expert g).getD (genBest objective lam expert g)
          defaultInd,
        genRNG objective lam expert g)
    ∧ expert.fitness ≤ (lambdaGen objective lam expert g).1.fitness
    ∧ List.Chain' (· ≤ ·) (one_plus_lambda L G objective lam gr).1 :=
  ⟨lambdaGen_eq_best objective lam expert g,
    lambdaGen_fitness_ge objective lam expert g,
    (onePlusLambdaLoop_spec objective lam G
      (evaluate (Individual.init L gr).1 objective).1
      (Individual.init L gr).2).1⟩

/-! ## The degenerate (1+1)-like case: lambda equal to 1 -/

theorem lambdaGen_one (objective : Individual → Int) (e : Individual)
    (g : RNG) : lambdaGen objective 1 e g = (e, g) := by
  show (if e.fitness ≤ e.fitness then e else e, g) = (e, g)
  rw [ite_self]

theorem onePlusLambdaLoop_one (objective : Individual → Int) :
    ∀ (G : Nat) (e : Individual) (g : RNG),
      onePlusLambdaLoop objective 1 G e g = (List.replicate G e.fitness, g) := by
  intro G
  induction G with
  | zero =>
    intro e g
    rfl
  | succ G ih =>
    intro e g
    rw [onePlusLambdaLoop_succ, lambdaGen_one]
    show (e.fitness :: (onePlusLambdaLoop objective 1 G e g).1,
      (onePlusLambdaLoop objective 1 G e g).2) = _
    rw [ih, List.replicate_succ]

/-- Claim C2 as amended: with lambda 1 the offspring loop of
one_plus_lambda is empty, so no offspring is generated, nothing is
evaluated inside the generations, the random generator is never advanced
past the initial genome draw, and the recorded trace is the constant list
repeating the initial expert fitness.  This is not the behaviour of
one_plus_one, which mutates and evaluates one child per generation. -/
theorem one_plus_lambda_one_is_constant (L G : Nat)
    (objective : Individual → Int) (g : RNG) :
    (one_plus_lambda L G objective 1 g).1
      = List.replicate G ((objective (Individual.init L g).1 : WithBot Int))
    ∧ (one_plus_lambda L G objective 1 g).2 = (Individual.init L g).2 := by
  have h := onePlusLambdaLoop_one objective G
      (evaluate (Individual.init L g).1 objective).1 (Individual.init L g).2
  constructor
  · show (onePlusLambdaLoop objective 1 G
        (evaluate (Individual.init L g).1 objective).1
        (Individual.init L g).2).1 = _
    rw [h]
    exact rfl
  · show (onePlusLambdaLoop objective 1 G
        (evaluate (Individual.init L g).1 objective).1
        (Individual.init L g).2).2 = _
    rw [h]

/-- The one-generation onemax run of one_plus_one on a single bit depends
only on the initial genome bit and on whether the single rand draw falls
below the default mutation rate: with initial bit 1 the recorded fitness
is 1 whatever the mutation does, and with initial bit 0 it is 1 exactly
when the draw flips the bit.  This identifies the four probability events
behind the expected value computed in the counterexample below. -/
theorem one_plus_one_len1_onemax (g : RNG) :
    (one_plus_one 1 1 onemax g).1
      = [if g.bits g.bi then ((1 : Int) : WithBot Int)
          else if g.us g.ui < defaultMutationRate then ((1 : Int) : WithBot Int)
          else ((0 : Int) : WithBot Int)] := by
  rcases hb : g.bits g.bi with _ | _ <;>
    by_cases hu : g.us g.ui < defaultMutationRate <;>
      simp +decide [one_plus_one, Individual.init, drawBits, RNG.drawBit,
        RNG.drawU, onePlusOneLoop, evaluate, onemax, mutateDefault, mutate,
        mutateGenes, hb, hu]

/-- The one-generation onemax run of one_plus_lambda with lambda 1 on a
single bit records exactly the initial fitness, determined by the initial
genome bit alone; no rand draw is consumed. -/
theorem one_plus_lambda_one_len1_onemax (g : RNG) :
    (one_plus_lambda 1 1 onemax 1 g).1
      = [if g.bits g.bi then ((1 : Int) : WithBot Int)
          else ((0 : Int) : WithBot Int)] := by
  show (onePlusLambdaLoop onemax 1 1
      (evaluate (Individual.init 1 g).1 onemax).1 (Individual.init 1 g).2).1 = _
  rw [onePlusLambdaLoop_one]
  rcases hb : g.bits g.bi with _ | _ <;>
    simp +decide [Individual.init, drawBits, RNG.drawBit, evaluate, onemax,
      hb, List.replicate]

/-- Counterexample for claim C2: the expected recorded fitness differs
between the two algorithms at length 1, one generation, onemax.  The
initial genome bit is uniform on 0 and 1, and the single rand draw of the
(1+1) generation falls below the default mutation rate 1/10 with
probability 1/10; by the two trace lemmas above, both runs are constant on
each of the four events, and the streams below are representatives of
those events.  The expected recorded fitness of one_plus_one is therefore
1/2 times (1/10 times 1 plus 9/10 times 1) plus 1/2 times (1/10 times 1
plus 9/10 times 0), which is 11/20, while one_plus_lambda with lambda 1
records the initial fitness, with expectation 1/2. -/
theorem one_plus_lambda_one_expected_trace_differs :
    mkRat 1 2 * (mkRat 1 10
          * fitQ ((one_plus_one 1 1 onemax (constRNG true (mkRat 1 20))).1.headD ⊥)
        + mkRat 9 10
          * fitQ ((one_plus_one 1 1 onemax (constRNG true (mkRat 1 2))).1.headD ⊥))
      + mkRat 1 2 * (mkRat 1 10
          * fitQ ((one_plus_one 1 1 onemax (constRNG false (mkRat 1 20))).1.headD ⊥)
        + mkRat 9 10
          * fitQ ((one_plus_one 1 1 onemax (constRNG false (mkRat 1 2))).1.headD ⊥))
      = mkRat 11 20
    ∧ mkRat 1 2
        * fitQ ((one_plus_lambda 1 1 onemax 1 (constRNG true (mkRat 1 2))).1.headD ⊥)
      + mkRat 1 2
        * fitQ ((one_plus_lambda 1 1 onemax 1 (constRNG false (mkRat 1 2))).1.headD ⊥)
      = mkRat 1 2
    ∧ (mkRat 11 20 : Rat) ≠ mkRat 1 2 := by
  have e1 : (one_plus_one 1 1 onemax (constRNG true (mkRat 1 20))).1
      = [((1 : Int) : WithBot Int)] := by decide
  have e2 : (one_plus_one 1 1 onemax (constRNG true (mkRat 1 2))).1
      = [((1 : Int) : WithBot Int)] := by decide
  have e3 : (one_plus_one 1 1 onemax (constRNG false (mkRat 1 20))).1
      = [((1 : Int) : WithBot Int)] := by decide
  have e4 : (one_plus_one 1 1 onemax (constRNG false (mkRat 1 2))).1
      = [((0 : Int) : WithBot Int)] := by decide
  have f1 : (one_plus_lambda 1 1 onemax 1 (constRNG true (mkRat 1 2))).1
      = [((1 : Int) : WithBot Int)] := by decide
  have f2 : (one_plus_lambda 1 1 onemax 1 (constRNG false (mkRat 1 2))).1
      = [((0 : Int) : WithBot Int)] := by decide
  refine ⟨?_, ?_, by decide⟩
  · rw [e1, e2, e3, e4]
    norm_num [fitQ, WithBot.unbot'_coe, Rat.mkRat_eq_div]
  · rw [f1, f2]
    norm_num [fitQ, WithBot.unbot'_coe, Rat.mkRat_eq_div]

end Evolution
